import Mathlib

/-!
Verification of the ginkgo cluster-testing framework against its specification.

The Go sources are embedded shallowly: every definition below is translated from a
concrete function or test body of the repository (the file and symbol are named in
the doc comment), with cluster reads modelled as explicitly passed data (a list of
pod records, a list of node labels, a list of per-tick observations, a list of log
lines).  Go int arithmetic on counts is modelled with Nat/Int; the float64 success
ratio is modelled with Option Rat where none encodes the IEEE NaN produced by the
0/0 division.
-/

namespace Cluster

/-! ## Topology skew calculator

Embeds the body of the spec "should verify topology constraints" in
topology_constraint_deployment_test.go (lines 139-210).  A pod is abstracted to
its name and the name of the node it is scheduled on (empty string when the pod
has no assigned node, which is the Go zero value returned for an unset
pod.Spec.NodeName).  The cluster node labels are passed as an association list
from node name to the value of the zone label; a node absent from the list has
no zone label. -/

structure PodInfo where
  name : String
  nodeName : String
deriving DecidableEq, Repr

/-- Lookup of the zone label of a node, mirroring the comma-ok map read
`zone, ok := node.Labels[...]` in the test body. -/
def lookupZone (labels : List (String × String)) (n : String) : Option String :=
  labels.lookup n

/-- The zone a pod is counted under in the loop at lines 180-184: the test reads
`nodeToZone[pod.Spec.NodeName]`, and a Go map lookup of a missing key yields the
zero value, the empty string.  The map nodeToZone only has entries for the
nonempty node names of the pods, each mapped to its zone label. -/
def podZone (labels : List (String × String)) (p : PodInfo) : String :=
  if p.nodeName = "" then "" else (lookupZone labels p.nodeName).getD ""

/-- One step of `zoneDistribution[zone]++`: increment the count of a key of the
association list, inserting the key with count 1 when absent. -/
def bump : List (String × Nat) → String → List (String × Nat)
  | [], z => [(z, 1)]
  | (k, c) :: rest, z => if k = z then (k, c + 1) :: rest else (k, c) :: bump rest z

/-- The map built at lines 177-184: one bucket per distinct pod zone, counting
the pods that fall in it.  The Go map is modelled as an association list in
insertion order; the claims only use counts and membership, which do not depend
on the iteration order of the map. -/
def zoneDistribution (labels : List (String × String)) (pods : List PodInfo) :
    List (String × Nat) :=
  pods.foldl (fun d p => bump d (podZone labels p)) []

/-- The `maxCount` accumulator of the loop at lines 187-196, starting at 0. -/
def foldMaxCount (init : Nat) (dist : List (String × Nat)) : Nat :=
  dist.foldl (fun m kc => if kc.2 > m then kc.2 else m) init

/-- The `minCount` accumulator of the same loop, starting at `len(pods.Items)`.
The Go code updates both accumulators in a single range loop; since the two
accumulators do not interact, the loop is split into two equivalent folds. -/
def foldMinCount (init : Nat) (dist : List (String × Nat)) : Nat :=
  dist.foldl (fun m kc => if kc.2 < m then kc.2 else m) init

/-- `skew := maxCount - minCount` (line 197), on Go int values. -/
def computeSkew (totalPods : Nat) (dist : List (String × Nat)) : Int :=
  (foldMaxCount 0 dist : Int) - (foldMinCount totalPods dist : Int)

/-- The whole check of "should verify topology constraints" from the pod list
on: build nodeToZone (aborting via ginkgo.Fail when a scheduled pod sits on a
node without a zone label, lines 166-175), build the distribution, compute the
skew and assert `skew <= 1` (line 206). -/
def verifyTopologyConstraints (labels : List (String × String)) (pods : List PodInfo) :
    Except String Int :=
  if pods.all (fun p => p.nodeName = "" || (lookupZone labels p.nodeName).isSome) then
    let dist := zoneDistribution labels pods
    let s := computeSkew pods.length dist
    if s ≤ 1 then Except.ok s else Except.error ("Topology skew violation")
  else Except.error ("missing zone label")

/-- First-match count lookup in the association list (all key occurrences are
unique by construction of bump, so first-match agrees with the map read). -/
def countOf : List (String × Nat) → String → Nat
  | [], _ => 0
  | (k, c) :: rest, z => if k = z then c else countOf rest z

/-! ## Rolling-update convergence monitor

Embeds the monitoring loop of the spec "should maintain minimum pods during
rolling update" (src/unnamed/part_000, lines 133-258).  Each loop iteration
performs two cluster reads: a deployment Get, whose status feeds the rollout
completion check, and a pod List, whose length is the running-pod sample.  One
tick of the model carries the data those two reads would return.  The list of
ticks plays the role of maxAttempts successive observations (the Go code uses
maxAttempts = 20); a gomega assertion failure aborts the spec body at once,
which the model renders by stopping the recursion. -/

structure DeploymentStatus where
  specReplicas : Nat
  updatedReplicas : Nat
  replicas : Nat
  availableReplicas : Nat
deriving DecidableEq, Repr

/-- Rollout completion check of lines 153-155: updated, total and available
replica counts must all equal the desired count simultaneously. -/
def rolloutComplete (d : DeploymentStatus) : Bool :=
  d.updatedReplicas = d.specReplicas && d.replicas = d.specReplicas &&
    d.availableReplicas = d.specReplicas

structure Tick where
  status : DeploymentStatus
  runningPods : Nat
deriving DecidableEq, Repr

inductive Outcome
  | succeeded
  | violated
  | timedOut
deriving DecidableEq, Repr

/-- Result of one monitored run.  minObservedPods is the extremum variable of
line 138; samples is a ghost trace of the running-pod counts actually read (the
Go code reads them imperatively, one per non-terminal iteration); reportedMin
is the extremum value printed by the closing log statement at lines 256-258,
none when that statement is never reached. -/
structure RunResult where
  outcome : Outcome
  minObservedPods : Nat
  samples : List Nat
  reportedMin : Option Nat
deriving DecidableEq, Repr

/-- Initial value of minObservedPods: `int32(1 << 30)` (line 138). -/
def initMinObserved : Nat := 2 ^ 30

/-- The monitoring loop (lines 143-245) followed by the final validation
(lines 247-258).  Per tick, in source order: check rollout completion and break
on success; otherwise list the running pods, update the extremum (lines
204-207), then assert the PDB floor (lines 234-241) - a failed assertion ends
the spec body immediately.  When the attempts are exhausted, the assertion
`Expect(rolloutComplete).To(BeTrue())` at line 248 fails, so the run ends as a
timeout before the extremum is reported; on the success path the extremum
assertion at lines 249-254 and the closing report at line 256 follow. -/
def monitorLoop (floor : Nat) : List Tick → Nat → RunResult
  | [], m =>
      { outcome := Outcome.timedOut, minObservedPods := m, samples := [],
        reportedMin := none }
  | t :: rest, m =>
      if rolloutComplete t.status then
        { outcome := Outcome.succeeded, minObservedPods := m, samples := [],
          reportedMin := if floor ≤ m then some m else none }
      else
        let m2 := min m t.runningPods
        if t.runningPods < floor then
          { outcome := Outcome.violated, minObservedPods := m2,
            samples := [t.runningPods], reportedMin := none }
        else
          let r := monitorLoop floor rest m2
          { r with samples := t.runningPods :: r.samples }

/-- A full run of the rolling-update monitor on a sequence of observations. -/
def runRollingUpdateMonitor (floor : Nat) (ticks : List Tick) : RunResult :=
  monitorLoop floor ticks initMinObserved

/-- A definition following the words of the specification rather than the code,
for comparison with monitorLoop: the spec orders each tick as snapshot, then
extremum update, then immediate invariant, and only then the terminal
predicate, so every tick - including a concluding one - takes a pod sample and
has the invariant checked on it. -/
def specOrderMonitorLoop (floor : Nat) : List Tick → Nat → RunResult
  | [], m =>
      { outcome := Outcome.timedOut, minObservedPods := m, samples := [],
        reportedMin := none }
  | t :: rest, m =>
      let m2 := min m t.runningPods
      if t.runningPods < floor then
        { outcome := Outcome.violated, minObservedPods := m2,
          samples := [t.runningPods], reportedMin := none }
      else if rolloutComplete t.status then
        { outcome := Outcome.succeeded, minObservedPods := m2,
          samples := [t.runningPods], reportedMin := some m2 }
      else
        let r := specOrderMonitorLoop floor rest m2
        { r with samples := t.runningPods :: r.samples }

/-- Spec-order run, for refinement comparison with runRollingUpdateMonitor. -/
def runSpecOrderMonitor (floor : Nat) (ticks : List Tick) : RunResult :=
  specOrderMonitorLoop floor ticks initMinObserved

inductive DelOutcome
  | passed
  | violated
deriving DecidableEq, Repr

/-- Embeds the post-deletion validation loop of the spec "should maintain
minimum pod count during deletions" (pdb_sts_test.go, lines 138-163): a fixed
number of attempts (numAttempts = 10, here the length of the list of successive
running-pod counts), each asserting the PDB floor; the first failed assertion
aborts the spec body.  Returns the outcome and the number of samples taken. -/
def deletionChecks (floor : Nat) : List Nat → DelOutcome × Nat
  | [] => (DelOutcome.passed, 0)
  | c :: rest =>
      if c < floor then (DelOutcome.violated, 1)
      else
        let r := deletionChecks floor rest
        (r.1, r.2 + 1)

/-! ## Report aggregator

Embeds the ReportAfterSuite body of src/unnamed/part_001 (lines 407-507).  Each
line of the suite log buffer is abstracted to: whether json.Unmarshal succeeds
on it (empty lines are also skipped, folded into the same flag), the value of
its "tag" field when present as a string, and the value of its "message" field
when present as a string. -/

structure LogLine where
  parseable : Bool
  tag : Option String
  message : Option String
deriving DecidableEq, Repr

/-- The helper `contains` of part_001 (lines 79-86). -/
def contains : List String → String → Bool
  | [], _ => false
  | v :: rest, str => if v = str then true else contains rest str

/-- `strings.Contains(msg, "TEST_FAILED")` (line 440): the designated failure
marker is a substring of the message field. -/
def hasFailureMarker (l : LogLine) : Bool :=
  match l.message with
  | some m => decide ("TEST_FAILED".toList <:+: m.toList)
  | none => false

/-- The classification accumulators of lines 420-425.  allTags is a Go map used
as a set; it is modelled as a de-duplicated list in insertion order, which the
claims only inspect through membership and cardinality, both independent of Go
map iteration order.  The logsByTags grouping is not needed by any claim and is
omitted. -/
structure AggState where
  failingTests : List String
  allowedToFailTests : List String
  failedButNotAllowedToFail : List String
  allTags : List String
deriving DecidableEq, Repr

def initialAggState : AggState :=
  { failingTests := [], allowedToFailTests := [], failedButNotAllowedToFail := [],
    allTags := [] }

/-- One iteration of the line loop (lines 427-453): skip unparseable lines and
lines without a string tag or with the internal bootstrap tag Setup; record the
tag; when the message carries the failure marker, append the tag to
failingTests and to allowedToFailTests or failedButNotAllowedToFail according
to the configured allow-list. -/
def processLine (allowedTags : List String) (s : AggState) (l : LogLine) : AggState :=
  if l.parseable then
    match l.tag with
    | none => s
    | some tagValue =>
        if tagValue = "Setup" then s
        else
          let s1 := { s with
            allTags := if contains s.allTags tagValue then s.allTags
                       else s.allTags ++ [tagValue] }
          if hasFailureMarker l then
            { s1 with
              failingTests := s1.failingTests ++ [tagValue],
              allowedToFailTests :=
                if contains allowedTags tagValue then
                  s1.allowedToFailTests ++ [tagValue]
                else s1.allowedToFailTests,
              failedButNotAllowedToFail :=
                if contains allowedTags tagValue then s1.failedButNotAllowedToFail
                else s1.failedButNotAllowedToFail ++ [tagValue] }
          else s1
  else s

/-- The whole line loop over the log stream. -/
def processLines (allowedTags : List String) (lines : List LogLine) : AggState :=
  lines.foldl (processLine allowedTags) initialAggState

/-- The loop at lines 455-459: every recorded tag that is not in failingTests
is succeeding. -/
def succeedingTests (s : AggState) : List String :=
  s.allTags.filter (fun tag => !contains s.failingTests tag)

/-- `totalTests := len(failingTests) + len(succeedingTests)` (line 461). -/
def totalTests (s : AggState) : Nat :=
  s.failingTests.length + (succeedingTests s).length

/-- `successRatio := float64(len(succeedingTests)) / float64(totalTests) * 100`
(line 462).  Float64 division is total: when totalTests = 0 the numerator is
also 0 and the Go value is NaN, encoded here as none (it is later rendered by
Sprintf as the string NaN); otherwise the value is the exact rational the float
computation approximates. -/
def successRatio (s : AggState) : Option Rat :=
  if totalTests s = 0 then none
  else some (((succeedingTests s).length : Rat) / (totalTests s : Rat) * 100)

/-- The serialized artifact of lines 465-473 (the timestamp and the embedded
log slices are omitted: no claim constrains them). -/
structure FinalReport where
  failingTests : List String
  succeedingTests : List String
  allowedToFailTests : List String
  failedButNotAllowed : List String
  successRatio : Option Rat
deriving DecidableEq, Repr

/-- Construction of the report written to the artifact file; it happens
unconditionally once the directory check passed, before the summary gate. -/
def buildFinalReport (allowedTags : List String) (lines : List LogLine) : FinalReport :=
  let s := processLines allowedTags lines
  { failingTests := s.failingTests, succeedingTests := succeedingTests s,
    allowedToFailTests := s.allowedToFailTests,
    failedButNotAllowed := s.failedButNotAllowedToFail,
    successRatio := successRatio s }

/-- The gate of the human-readable summary: `if totalTests > 2` (line 487). -/
def summaryEmitted (s : AggState) : Bool :=
  totalTests s > 2

/-- A parseable record for tag t, other than the bootstrap tag. -/
def tagRecorded (l : LogLine) (t : String) : Prop :=
  l.parseable = true ∧ l.tag = some t ∧ t ≠ "Setup"

/-- A parseable record for tag t carrying the failure marker. -/
def failRecorded (l : LogLine) (t : String) : Prop :=
  tagRecorded l t ∧ hasFailureMarker l = true

/-- Boolean form of: this line appends one entry to failingTests. -/
def lineFails (l : LogLine) : Bool :=
  l.parseable &&
    (match l.tag with
     | some t => decide (t ≠ "Setup") && hasFailureMarker l
     | none => false)

/-- A definition following the words of the claim rather than the code, for
comparison with successRatio: the ratio with the failing bucket counted as a
set of tags (each failing tag once), not per failure record. -/
def claimedSuccessRatio (s : AggState) : Option Rat :=
  let f := s.failingTests.dedup.length
  let sc := (succeedingTests s).length
  if sc + f = 0 then none else some ((sc : Rat) / ((sc + f : Nat) : Rat) * 100)

/-! ## Kubeconfig initialization

Embeds initKubeconfig and the KUBECONFIG branch of GetClient (setup.go lines
18-60; the same function also appears in src/unnamed/part_001 lines 92-121 and
is called there by the KUBECONFIG case of GetClient, lines 190-200).  The
environment is abstracted to: the result of godotenv.Load(".env"), the value of
os.Getenv("KUBECONFIG") after that load (empty when unset), the home directory
(empty when none), and the set of paths for which os.Stat succeeds. -/

inductive LoadEnvResult
  | ok
  | notExist
  | otherError
deriving DecidableEq, Repr

structure EnvSt where
  loadResult : LoadEnvResult
  kubeconfigVar : String
  homeDir : String
  existingFiles : List String
deriving DecidableEq, Repr

/-- How initKubeconfig concludes: a usable path, an error return value, or a
Go panic. -/
inductive InitResult
  | ok (path : String)
  | err (msg : String)
  | panicked (msg : String)
deriving DecidableEq, Repr

def envFormatErrorMsg : String :=
  ".env file format error, please use KUBECONFIG=/path/to/.kube/config"

/-- initKubeconfig: return an error when .env exists but fails to load; read
KUBECONFIG; when it is empty, fall back to the home-directory default only if
.env does not exist, and panic when .env exists but left KUBECONFIG empty;
finally require the kubeconfig file to exist. -/
def initKubeconfig (env : EnvSt) : InitResult :=
  if env.loadResult = LoadEnvResult.otherError then
    InitResult.err ("error loading .env file")
  else if env.kubeconfigVar = "" then
    if env.loadResult = LoadEnvResult.notExist then
      if env.homeDir = "" then InitResult.err ("no home directory found")
      else if contains env.existingFiles (env.homeDir ++ "/.kube/config") then
        InitResult.ok (env.homeDir ++ "/.kube/config")
      else InitResult.err ("kubeconfig not found")
    else InitResult.panicked envFormatErrorMsg
  else if contains env.existingFiles env.kubeconfigVar then
    InitResult.ok env.kubeconfigVar
  else InitResult.err ("kubeconfig not found")

/-- GetClient under the KUBECONFIG access mode: it calls initKubeconfig, returns
its error immediately, and otherwise proceeds to build the client from the
chosen path (the client construction itself is an external collaborator); a
panic in initKubeconfig propagates out of GetClient. -/
def getClientKubeconfigMode (env : EnvSt) : InitResult :=
  match initKubeconfig env with
  | InitResult.ok p => InitResult.ok p
  | InitResult.err m => InitResult.err m
  | InitResult.panicked m => InitResult.panicked m

/-! ## Helper lemmas -/

theorem contains_iff (l : List String) (s : String) : contains l s = true ↔ s ∈ l := by
  induction l with
  | nil => simp [contains]
  | cons v rest ih =>
      by_cases h : v = s
      · simp [contains, h]
      · simp [contains, h, ih, Ne.symm h]

theorem countOf_bump (d : List (String × Nat)) (z w : String) :
    countOf (bump d z) w = if w = z then countOf d w + 1 else countOf d w := by
  induction d with
  | nil =>
      by_cases h : w = z
      · simp [bump, countOf, h]
      · simp [bump, countOf, h, Ne.symm h]
  | cons kc rest ih =>
      obtain ⟨k, c⟩ := kc
      by_cases hk : k = z
      · subst hk
        by_cases hw : w = k
        · subst hw
          simp [bump, countOf]
        · simp [bump, countOf, hw, Ne.symm hw]
      · by_cases hw : k = w
        · subst hw
          simp [bump, countOf, hk, Ne.symm hk]
        · simp [bump, countOf, hk, hw, ih]

theorem countOf_zoneDistribution_aux (labels : List (String × String))
    (pods : List PodInfo) (d : List (String × Nat)) (z : String) :
    countOf (pods.foldl (fun d p => bump d (podZone labels p)) d) z =
      countOf d z + (pods.filter (fun p => podZone labels p = z)).length := by
  induction pods generalizing d with
  | nil => simp
  | cons p rest ih =>
      by_cases h : podZone labels p = z
      · simp [List.foldl_cons, ih, countOf_bump, h, List.filter_cons]
        omega
      · simp [List.foldl_cons, ih, countOf_bump, h, Ne.symm h, List.filter_cons]

/-- Bucket correctness: the count recorded for a zone equals the number of pods
whose (defaulted) zone is that zone. -/
theorem countOf_zoneDistribution (labels : List (String × String))
    (pods : List PodInfo) (z : String) :
    countOf (zoneDistribution labels pods) z =
      (pods.filter (fun p => podZone labels p = z)).length := by
  simpa [zoneDistribution, countOf] using countOf_zoneDistribution_aux labels pods [] z

theorem bump_ne_nil (d : List (String × Nat)) (z : String) : bump d z ≠ [] := by
  cases d with
  | nil => simp [bump]
  | cons kc rest =>
      obtain ⟨k, c⟩ := kc
      by_cases h : k = z <;> simp [bump, h]

theorem zoneDistribution_aux_ne_nil (labels : List (String × String))
    (pods : List PodInfo) (d : List (String × Nat)) (hd : d ≠ []) :
    pods.foldl (fun d p => bump d (podZone labels p)) d ≠ [] := by
  induction pods generalizing d with
  | nil => simpa
  | cons p rest ih => exact ih _ (bump_ne_nil d _)

/-- The distribution is empty exactly when there are no pods: every pod lands in
some bucket (scheduled or not). -/
theorem zoneDistribution_eq_nil_iff (labels : List (String × String))
    (pods : List PodInfo) :
    zoneDistribution labels pods = [] ↔ pods = [] := by
  cases pods with
  | nil => simp [zoneDistribution]
  | cons p rest =>
      simp only [zoneDistribution, List.foldl_cons]
      constructor
      · intro h
        exact absurd h (zoneDistribution_aux_ne_nil labels rest _ (bump_ne_nil [] _))
      · intro h
        exact absurd h (by simp)

theorem foldMaxCount_spec (dist : List (String × Nat)) (init : Nat) :
    (∀ kc ∈ dist, kc.2 ≤ foldMaxCount init dist) ∧ init ≤ foldMaxCount init dist ∧
      (foldMaxCount init dist = init ∨ ∃ kc ∈ dist, foldMaxCount init dist = kc.2) := by
  induction dist generalizing init with
  | nil => simp [foldMaxCount]
  | cons kc rest ih =>
      obtain ⟨hbound, hinit, hattained⟩ := ih (if kc.2 > init then kc.2 else init)
      refine ⟨?_, ?_, ?_⟩
      · intro kc2 h2
        rcases List.mem_cons.mp h2 with h2 | h2
        · subst h2
          refine le_trans ?_ hinit
          by_cases h : kc2.2 > init <;> simp [foldMaxCount, h] <;> omega
        · exact hbound kc2 h2
      · refine le_trans ?_ hinit
        by_cases h : kc.2 > init <;> simp [h] <;> omega
      · rcases hattained with h | ⟨kc2, h2, h3⟩
        · by_cases hgt : kc.2 > init
          · right
            exact ⟨kc, List.mem_cons_self kc rest, by simpa [foldMaxCount, hgt] using h⟩
          · left
            simpa [foldMaxCount, hgt] using h
        · right
          exact ⟨kc2, List.mem_cons_of_mem kc h2, h3⟩

theorem foldMinCount_spec (dist : List (String × Nat)) (init : Nat) :
    (∀ kc ∈ dist, foldMinCount init dist ≤ kc.2) ∧ foldMinCount init dist ≤ init ∧
      (foldMinCount init dist = init ∨ ∃ kc ∈ dist, foldMinCount init dist = kc.2) := by
  induction dist generalizing init with
  | nil => simp [foldMinCount]
  | cons kc rest ih =>
      obtain ⟨hbound, hinit, hattained⟩ := ih (if kc.2 < init then kc.2 else init)
      refine ⟨?_, ?_, ?_⟩
      · intro kc2 h2
        rcases List.mem_cons.mp h2 with h2 | h2
        · subst h2
          refine le_trans hinit ?_
          by_cases h : kc2.2 < init <;> simp [foldMinCount, h] <;> omega
        · exact hbound kc2 h2
      · refine le_trans hinit ?_
        by_cases h : kc.2 < init <;> simp [h] <;> omega
      · rcases hattained with h | ⟨kc2, h2, h3⟩
        · by_cases hlt : kc.2 < init
          · right
            exact ⟨kc, List.mem_cons_self kc rest, by simpa [foldMinCount, hlt] using h⟩
          · left
            simpa [foldMinCount, hlt] using h
        · right
          exact ⟨kc2, List.mem_cons_of_mem kc h2, h3⟩

theorem snd_le_sum (d : List (String × Nat)) :
    ∀ kc ∈ d, kc.2 ≤ (d.map Prod.snd).sum := by
  induction d with
  | nil => simp
  | cons kc rest ih =>
      intro kc2 h2
      rcases List.mem_cons.mp h2 with h2 | h2
      · subst h2
        simp
      · have := ih kc2 h2
        simp only [List.map_cons, List.sum_cons]
        omega

theorem sum_bump (d : List (String × Nat)) (z : String) :
    ((bump d z).map Prod.snd).sum = (d.map Prod.snd).sum + 1 := by
  induction d with
  | nil => simp [bump]
  | cons kc rest ih =>
      obtain ⟨k, c⟩ := kc
      by_cases h : k = z
      · simp [bump, h]
        omega
      · simp [bump, h, ih]
        omega

theorem sum_zoneDistribution_aux (labels : List (String × String))
    (pods : List PodInfo) (d : List (String × Nat)) :
    ((pods.foldl (fun d p => bump d (podZone labels p)) d).map Prod.snd).sum =
      (d.map Prod.snd).sum + pods.length := by
  induction pods generalizing d with
  | nil => simp
  | cons p rest ih =>
      simp [List.foldl_cons, ih, sum_bump]
      omega

/-- Every pod contributes exactly once: the bucket counts sum to the number of
pods. -/
theorem sum_zoneDistribution (labels : List (String × String)) (pods : List PodInfo) :
    ((zoneDistribution labels pods).map Prod.snd).sum = pods.length := by
  simpa [zoneDistribution] using sum_zoneDistribution_aux labels pods []

/-! ## Claim C1: skew over populated zones -/

/-- C1, counterexample: with zero populated zones (no pods, hence an empty
distribution) the skew computation does not fail: it returns skew 0 and the
check passes, where the claim requires an error. -/
theorem C1_zero_zones_counterexample :
    zoneDistribution [] ([] : List PodInfo) = [] ∧
      verifyTopologyConstraints [] ([] : List PodInfo) = Except.ok 0 := by
  exact ⟨rfl, rfl⟩

/-- C1, amended: with at least one populated zone (a nonempty distribution) the
skew equals max(count) - min(count) over the populated zones and is nonnegative;
with zero populated zones the computation returns skew 0 and succeeds instead of
failing. -/
theorem C1_skew_amended (labels : List (String × String)) (pods : List PodInfo) :
    (zoneDistribution labels pods ≠ [] →
      ∃ M m, (∃ kc ∈ zoneDistribution labels pods, kc.2 = M) ∧
        (∃ kc ∈ zoneDistribution labels pods, kc.2 = m) ∧
        (∀ kc ∈ zoneDistribution labels pods, kc.2 ≤ M ∧ m ≤ kc.2) ∧
        computeSkew pods.length (zoneDistribution labels pods) = (M : Int) - (m : Int) ∧
        0 ≤ computeSkew pods.length (zoneDistribution labels pods)) ∧
    (zoneDistribution labels pods = [] →
      computeSkew pods.length (zoneDistribution labels pods) = 0 ∧
      verifyTopologyConstraints labels pods = Except.ok 0) := by
  constructor
  · intro hne
    obtain ⟨kc0, hkc0⟩ := List.exists_mem_of_ne_nil _ hne
    obtain ⟨hmaxb, hmaxi, hmaxa⟩ := foldMaxCount_spec (zoneDistribution labels pods) 0
    obtain ⟨hminb, hmini, hmina⟩ :=
      foldMinCount_spec (zoneDistribution labels pods) pods.length
    refine ⟨foldMaxCount 0 (zoneDistribution labels pods),
      foldMinCount pods.length (zoneDistribution labels pods), ?_, ?_, ?_, rfl, ?_⟩
    · rcases hmaxa with h | h
      · have h0 := hmaxb kc0 hkc0
        exact ⟨kc0, hkc0, by omega⟩
      · obtain ⟨kc, hkc, hv⟩ := h
        exact ⟨kc, hkc, hv.symm⟩
    · rcases hmina with h | h
      · have hsle : kc0.2 ≤ pods.length := by
          have := snd_le_sum (zoneDistribution labels pods) kc0 hkc0
          rw [sum_zoneDistribution] at this
          exact this
        have h0 := hminb kc0 hkc0
        exact ⟨kc0, hkc0, by omega⟩
      · obtain ⟨kc, hkc, hv⟩ := h
        exact ⟨kc, hkc, hv.symm⟩
    · exact fun kc hkc => ⟨hmaxb kc hkc, hminb kc hkc⟩
    · have h1 := hminb kc0 hkc0
      have h2 := hmaxb kc0 hkc0
      simp only [computeSkew]
      omega
  · intro hnil
    have hp : pods = [] := (zoneDistribution_eq_nil_iff labels pods).mp hnil
    subst hp
    exact ⟨rfl, rfl⟩

/-- C1 amended, witness: three pods in two zones; the distribution is nonempty
and the amended statement yields a nonnegative skew. -/
theorem C1_skew_amended_witness :
    0 ≤ computeSkew 3 (zoneDistribution [("n1", "z1"), ("n2", "z2")]
      [⟨"a", "n1"⟩, ⟨"b", "n1"⟩, ⟨"c", "n2"⟩]) := by
  obtain ⟨M, m, h1, h2, h3, h4, h5⟩ :=
    (C1_skew_amended [("n1", "z1"), ("n2", "z2")]
      [⟨"a", "n1"⟩, ⟨"b", "n1"⟩, ⟨"c", "n2"⟩]).1 (by decide)
  simpa using h5

/-! ## Claim C8: entities lacking an assigned zone -/

/-- C8, counterexample: a single pod with no assigned node is not excluded; it
creates an empty-string zone bucket with count 1. -/
theorem C8_empty_zone_counterexample :
    zoneDistribution [] [⟨"p1", ""⟩] = [("", 1)] ∧
      countOf (zoneDistribution [] [⟨"p1", ""⟩]) "" = 1 := by
  exact ⟨rfl, rfl⟩

/-- C8, amended: entities lacking an assigned node are not excluded from the
distribution; each is counted under the empty-string zone bucket (the Go map
zero value), whose count equals the number of pods whose defaulted zone is the
empty string; in particular the presence of any unassigned pod forces a
populated empty-zone bucket. -/
theorem C8_unassigned_bucket_amended (labels : List (String × String))
    (pods : List PodInfo) :
    countOf (zoneDistribution labels pods) "" =
      (pods.filter (fun p => podZone labels p = "")).length ∧
    ∀ p ∈ pods, p.nodeName = "" → 1 ≤ countOf (zoneDistribution labels pods) "" := by
  refine ⟨countOf_zoneDistribution labels pods "", ?_⟩
  intro p hp hname
  rw [countOf_zoneDistribution labels pods ""]
  have hz : podZone labels p = "" := by simp [podZone, hname]
  have : p ∈ pods.filter (fun p => podZone labels p = "") :=
    List.mem_filter.mpr ⟨hp, by simp [hz]⟩
  have hne : pods.filter (fun p => podZone labels p = "") ≠ [] :=
    List.ne_nil_of_mem this
  have := List.length_pos.mpr hne
  omega

/-- C8 amended, witness: one scheduled pod and one unassigned pod. -/
theorem C8_unassigned_bucket_amended_witness :
    countOf (zoneDistribution [("n1", "z1")] [⟨"a", "n1"⟩, ⟨"b", ""⟩]) "" =
      ((List.filter (fun p => podZone [("n1", "z1")] p = "")
        [⟨"a", "n1"⟩, ⟨"b", ""⟩]).length) ∧
      1 ≤ countOf (zoneDistribution [("n1", "z1")] [⟨"a", "n1"⟩, ⟨"b", ""⟩]) "" :=
  ⟨(C8_unassigned_bucket_amended [("n1", "z1")] [⟨"a", "n1"⟩, ⟨"b", ""⟩]).1,
    (C8_unassigned_bucket_amended [("n1", "z1")] [⟨"a", "n1"⟩, ⟨"b", ""⟩]).2
      ⟨"b", ""⟩ (by decide) rfl⟩

/-! ## Monitor helper lemmas -/

theorem monitorLoop_minObserved (floor : Nat) (ticks : List Tick) (m : Nat) :
    (monitorLoop floor ticks m).minObservedPods =
      (monitorLoop floor ticks m).samples.foldl min m := by
  induction ticks generalizing m with
  | nil => simp [monitorLoop]
  | cons t rest ih =>
      by_cases hc : rolloutComplete t.status
      · simp [monitorLoop, hc]
      · by_cases hv : t.runningPods < floor
        · simp [monitorLoop, hc, hv]
        · simp [monitorLoop, hc, hv, ih]

theorem monitorLoop_samples_sub (floor : Nat) (ticks : List Tick) (m : Nat) :
    ∀ s ∈ (monitorLoop floor ticks m).samples, ∃ t ∈ ticks, s = t.runningPods := by
  induction ticks generalizing m with
  | nil => simp [monitorLoop]
  | cons t rest ih =>
      by_cases hc : rolloutComplete t.status
      · simp [monitorLoop, hc]
      · by_cases hv : t.runningPods < floor
        · intro s hs
          simp [monitorLoop, hc, hv] at hs
          exact ⟨t, List.mem_cons_self t rest, hs⟩
        · intro s hs
          simp only [monitorLoop, hc, hv, if_false, if_neg, Bool.false_eq_true,
            List.mem_cons] at hs
          rcases hs with hs | hs
          · exact ⟨t, List.mem_cons_self t rest, hs⟩
          · obtain ⟨u, hu, hsu⟩ := ih (min m t.runningPods) s hs
            exact ⟨u, List.mem_cons_of_mem t hu, hsu⟩

theorem monitorLoop_not_violated (floor : Nat) (ticks : List Tick) (m : Nat)
    (h : (monitorLoop floor ticks m).outcome ≠ Outcome.violated) :
    ∀ s ∈ (monitorLoop floor ticks m).samples, floor ≤ s := by
  induction ticks generalizing m with
  | nil => simp [monitorLoop]
  | cons t rest ih =>
      by_cases hc : rolloutComplete t.status
      · simp [monitorLoop, hc]
      · by_cases hv : t.runningPods < floor
        · exact absurd (by simp [monitorLoop, hc, hv]) h
        · intro s hs
          simp only [monitorLoop, hc, hv, if_false, if_neg, Bool.false_eq_true,
            List.mem_cons] at hs
          rcases hs with hs | hs
          · omega
          · have h2 : (monitorLoop floor rest (min m t.runningPods)).outcome ≠
                Outcome.violated := by
              simpa [monitorLoop, hc, hv] using h
            exact ih (min m t.runningPods) h2 s hs

theorem monitorLoop_violated_split (floor : Nat) (ticks : List Tick) (m : Nat)
    (h : (monitorLoop floor ticks m).outcome = Outcome.violated) :
    ∃ spre l, (monitorLoop floor ticks m).samples = spre ++ [l] ∧
      (∀ s ∈ spre, floor ≤ s) ∧ l < floor := by
  induction ticks generalizing m with
  | nil => simp [monitorLoop] at h
  | cons t rest ih =>
      by_cases hc : rolloutComplete t.status
      · simp [monitorLoop, hc] at h
      · by_cases hv : t.runningPods < floor
        · exact ⟨[], t.runningPods, by simp [monitorLoop, hc, hv], by simp, hv⟩
        · have h2 : (monitorLoop floor rest (min m t.runningPods)).outcome =
              Outcome.violated := by
            simpa [monitorLoop, hc, hv] using h
          obtain ⟨spre, l, hsp, hall, hl⟩ := ih (min m t.runningPods) h2
          refine ⟨t.runningPods :: spre, l, ?_, ?_, hl⟩
          · simp [monitorLoop, hc, hv, hsp]
          · intro s hs
            rcases List.mem_cons.mp hs with hs | hs
            · omega
            · exact hall s hs

theorem monitorLoop_succeeded (floor : Nat) (ticks : List Tick) (m : Nat)
    (h : (monitorLoop floor ticks m).outcome = Outcome.succeeded) :
    (monitorLoop floor ticks m).samples.length < ticks.length ∧
      (monitorLoop floor ticks m).reportedMin =
        (if floor ≤ (monitorLoop floor ticks m).minObservedPods then
          some (monitorLoop floor ticks m).minObservedPods else none) := by
  induction ticks generalizing m with
  | nil => simp [monitorLoop] at h
  | cons t rest ih =>
      by_cases hc : rolloutComplete t.status
      · simp [monitorLoop, hc]
      · by_cases hv : t.runningPods < floor
        · simp [monitorLoop, hc, hv] at h
        · have h2 : (monitorLoop floor rest (min m t.runningPods)).outcome =
              Outcome.succeeded := by
            simpa [monitorLoop, hc, hv] using h
          obtain ⟨hlen, hrep⟩ := ih (min m t.runningPods) h2
          constructor
          · simp only [monitorLoop, hc, hv, if_false, if_neg, Bool.false_eq_true,
              List.length_cons]
            omega
          · simpa [monitorLoop, hc, hv] using hrep

theorem monitorLoop_not_succeeded (floor : Nat) (ticks : List Tick) (m : Nat)
    (h : (monitorLoop floor ticks m).outcome ≠ Outcome.succeeded) :
    (monitorLoop floor ticks m).reportedMin = none := by
  induction ticks generalizing m with
  | nil => simp [monitorLoop]
  | cons t rest ih =>
      by_cases hc : rolloutComplete t.status
      · exact absurd (by simp [monitorLoop, hc]) h
      · by_cases hv : t.runningPods < floor
        · simp [monitorLoop, hc, hv]
        · have h2 : (monitorLoop floor rest (min m t.runningPods)).outcome ≠
              Outcome.succeeded := by
            simpa [monitorLoop, hc, hv] using h
          simpa [monitorLoop, hc, hv] using ih (min m t.runningPods) h2

theorem foldl_min_spec (l : List Nat) (init : Nat) :
    (∀ x ∈ l, l.foldl min init ≤ x) ∧ l.foldl min init ≤ init ∧
      (l.foldl min init = init ∨ l.foldl min init ∈ l) := by
  induction l generalizing init with
  | nil => simp
  | cons x rest ih =>
      obtain ⟨hbound, hinit, hattained⟩ := ih (min init x)
      refine ⟨?_, ?_, ?_⟩
      · intro y hy
        rcases List.mem_cons.mp hy with hy | hy
        · subst hy
          exact le_trans hinit (by omega)
        · exact hbound y hy
      · exact le_trans hinit (by omega)
      · rcases hattained with h | h
        · rcases Nat.le_total init x with hle | hle
          · left
            rw [List.foldl_cons, h]
            omega
          · right
            rw [List.foldl_cons, h]
            exact List.mem_cons.mpr (Or.inl (by omega))
        · right
          rw [List.foldl_cons]
          exact List.mem_cons_of_mem x h

theorem monitorLoop_violation_at (floor : Nat) (pre : List Tick) (t : Tick)
    (post : List Tick) (m : Nat)
    (hpre : ∀ u ∈ pre, rolloutComplete u.status = false ∧ floor ≤ u.runningPods)
    (ht : rolloutComplete t.status = false) (hv : t.runningPods < floor) :
    (monitorLoop floor (pre ++ t :: post) m).outcome = Outcome.violated ∧
      (monitorLoop floor (pre ++ t :: post) m).samples =
        pre.map Tick.runningPods ++ [t.runningPods] := by
  induction pre generalizing m with
  | nil => simp [monitorLoop, ht, hv]
  | cons u rest ih =>
      obtain ⟨hu1, hu2⟩ := hpre u (List.mem_cons_self u rest)
      have hrest : ∀ w ∈ rest, rolloutComplete w.status = false ∧ floor ≤ w.runningPods :=
        fun w hw => hpre w (List.mem_cons_of_mem u hw)
      obtain ⟨ho, hs⟩ := ih (min m u.runningPods) hrest
      constructor
      · simpa [monitorLoop, hu1, Nat.not_lt.mpr hu2] using ho
      · simp [monitorLoop, hu1, Nat.not_lt.mpr hu2, hs]

theorem deletionChecks_violation_at (floor : Nat) (dpre : List Nat) (c : Nat)
    (dpost : List Nat) (hpre : ∀ x ∈ dpre, floor ≤ x) (hc : c < floor) :
    deletionChecks floor (dpre ++ c :: dpost) = (DelOutcome.violated, dpre.length + 1) := by
  induction dpre with
  | nil => simp [deletionChecks, hc]
  | cons x rest ih =>
      have hx := hpre x (List.mem_cons_self x rest)
      have hrest : ∀ y ∈ rest, floor ≤ y := fun y hy => hpre y (List.mem_cons_of_mem x hy)
      simp [deletionChecks, Nat.not_lt.mpr hx, ih hrest]

/-! ## Claim C2: a violation ends the run at once -/

/-- C2: in the rolling-update monitor, when the PDB floor invariant holds on
every earlier tick (all of them non-terminal) and is violated on tick i, the
run ends as Violated on tick i with exactly the samples of ticks 0..i - no
observation after the violating one, however many ticks remain; likewise the
post-deletion check loop stops at its first violating sample. -/
theorem C2_violation_stops_run (floor : Nat) (pre : List Tick) (t : Tick)
    (post : List Tick)
    (hpre : ∀ u ∈ pre, rolloutComplete u.status = false ∧ floor ≤ u.runningPods)
    (ht : rolloutComplete t.status = false) (hv : t.runningPods < floor) :
    ((runRollingUpdateMonitor floor (pre ++ t :: post)).outcome = Outcome.violated ∧
      (runRollingUpdateMonitor floor (pre ++ t :: post)).samples =
        pre.map Tick.runningPods ++ [t.runningPods]) ∧
    ∀ (dpre : List Nat) (c : Nat) (dpost : List Nat), (∀ x ∈ dpre, floor ≤ x) →
      c < floor →
      deletionChecks floor (dpre ++ c :: dpost) =
        (DelOutcome.violated, dpre.length + 1) := by
  refine ⟨monitorLoop_violation_at floor pre t post initMinObserved hpre ht hv, ?_⟩
  intro dpre c dpost h1 h2
  exact deletionChecks_violation_at floor dpre c dpost h1 h2

/-- C2, witness: the scenario of the testable properties - floor 5 and sample
sequence [6, 6, 4, 5] stops as Violated on the third sample, in both loops. -/
theorem C2_violation_stops_run_witness :
    (runRollingUpdateMonitor 5
        ([⟨⟨10, 3, 10, 9⟩, 6⟩, ⟨⟨10, 3, 10, 9⟩, 6⟩] ++
          ⟨⟨10, 3, 10, 9⟩, 4⟩ :: [⟨⟨10, 3, 10, 9⟩, 5⟩])).outcome = Outcome.violated ∧
    (runRollingUpdateMonitor 5
        ([⟨⟨10, 3, 10, 9⟩, 6⟩, ⟨⟨10, 3, 10, 9⟩, 6⟩] ++
          ⟨⟨10, 3, 10, 9⟩, 4⟩ :: [⟨⟨10, 3, 10, 9⟩, 5⟩])).samples = [6, 6, 4] ∧
    deletionChecks 5 ([6, 6] ++ 4 :: [5]) = (DelOutcome.violated, 3) := by
  have h := C2_violation_stops_run 5 [⟨⟨10, 3, 10, 9⟩, 6⟩, ⟨⟨10, 3, 10, 9⟩, 6⟩]
    ⟨⟨10, 3, 10, 9⟩, 4⟩ [⟨⟨10, 3, 10, 9⟩, 5⟩] (by decide) (by decide) (by decide)
  refine ⟨h.1.1, by simpa using h.1.2, ?_⟩
  simpa using h.2 [6, 6] 4 [5] (by decide) (by decide)

/-! ## Claim C3: per-tick ordering of invariant and terminal predicate -/

/-- C3, counterexample: on a tick whose deployment status is already terminal
while the running-pod count violates the floor, the code concludes Succeeded
without taking any pod sample, whereas the order stated by the claim (snapshot,
extrema, invariant, then terminal predicate) would sample and conclude
Violated. -/
theorem C3_order_counterexample :
    (runRollingUpdateMonitor 1 [⟨⟨3, 3, 3, 3⟩, 0⟩]).outcome = Outcome.succeeded ∧
    (runRollingUpdateMonitor 1 [⟨⟨3, 3, 3, 3⟩, 0⟩]).samples = [] ∧
    (runSpecOrderMonitor 1 [⟨⟨3, 3, 3, 3⟩, 0⟩]).outcome = Outcome.violated ∧
    (runSpecOrderMonitor 1 [⟨⟨3, 3, 3, 3⟩, 0⟩]).samples = [0] := by
  decide

/-- C3, amended: each tick first evaluates the terminal predicate on the fresh
deployment status and only on non-terminal ticks takes a pod sample, updates
the extremum and checks the floor invariant.  Consequently the invariant is
checked on every pod sample actually taken, including the first: the run is
Violated exactly when its last sample violates the floor, all earlier samples
satisfy it, and a successful run takes no sample on its concluding tick. -/
theorem C3_invariant_coverage_amended (floor : Nat) (ticks : List Tick) :
    ((runRollingUpdateMonitor floor ticks).outcome = Outcome.violated ↔
      ∃ s, (runRollingUpdateMonitor floor ticks).samples.getLast? = some s ∧
        s < floor) ∧
    ((runRollingUpdateMonitor floor ticks).outcome ≠ Outcome.violated →
      ∀ s ∈ (runRollingUpdateMonitor floor ticks).samples, floor ≤ s) ∧
    ((runRollingUpdateMonitor floor ticks).outcome = Outcome.violated →
      ∀ s ∈ (runRollingUpdateMonitor floor ticks).samples.dropLast, floor ≤ s) ∧
    ((runRollingUpdateMonitor floor ticks).outcome = Outcome.succeeded →
      (runRollingUpdateMonitor floor ticks).samples.length < ticks.length) := by
  refine ⟨⟨?_, ?_⟩, ?_, ?_, ?_⟩
  · intro h
    obtain ⟨spre, l, hsp, hall, hl⟩ :=
      monitorLoop_violated_split floor ticks initMinObserved h
    exact ⟨l, by simp [runRollingUpdateMonitor, hsp], hl⟩
  · rintro ⟨s, hs, hsf⟩
    by_contra hno
    obtain ⟨hne, heq⟩ := List.mem_getLast?_eq_getLast (Option.mem_def.mpr hs)
    have hmem : s ∈ (runRollingUpdateMonitor floor ticks).samples :=
      heq ▸ List.getLast_mem hne
    have := monitorLoop_not_violated floor ticks initMinObserved hno s hmem
    omega
  · exact monitorLoop_not_violated floor ticks initMinObserved
  · intro h
    obtain ⟨spre, l, hsp, hall, hl⟩ :=
      monitorLoop_violated_split floor ticks initMinObserved h
    intro s hs
    simp only [runRollingUpdateMonitor] at hsp hs
    rw [hsp] at hs
    have hdl : (spre ++ [l]).dropLast = spre := by simp
    rw [hdl] at hs
    exact hall s hs
  · intro h
    exact (monitorLoop_succeeded floor ticks initMinObserved h).1

/-- C3 amended, witness: a run that succeeds on its second tick took exactly
one pod sample, strictly fewer than the number of ticks consumed. -/
theorem C3_invariant_coverage_amended_witness :
    (runRollingUpdateMonitor 5
      [⟨⟨10, 3, 10, 9⟩, 6⟩, ⟨⟨10, 10, 10, 10⟩, 9⟩]).samples.length < 2 := by
  have h := (C3_invariant_coverage_amended 5
    [⟨⟨10, 3, 10, 9⟩, 6⟩, ⟨⟨10, 10, 10, 10⟩, 9⟩]).2.2.2 (by decide)
  simpa using h

/-! ## Claim C4: the minimum-observed extremum and its reporting -/

/-- C4, counterexample: a run that times out (the rollout never completes
within the attempts) tracks the true minimum 6 of its samples, but the run
aborts at the rollout-completion assertion and the extremum is never reported,
where the claim requires it to be reported regardless of outcome. -/
theorem C4_reporting_counterexample :
    (runRollingUpdateMonitor 5 [⟨⟨10, 3, 10, 9⟩, 6⟩]).outcome = Outcome.timedOut ∧
    (runRollingUpdateMonitor 5 [⟨⟨10, 3, 10, 9⟩, 6⟩]).samples = [6] ∧
    (runRollingUpdateMonitor 5 [⟨⟨10, 3, 10, 9⟩, 6⟩]).minObservedPods = 6 ∧
    (runRollingUpdateMonitor 5 [⟨⟨10, 3, 10, 9⟩, 6⟩]).reportedMin = none := by
  decide

/-- C4, amended: whenever at least one sample is taken (and, as for any int32
pod count, the samples do not exceed the 2^30 starting value, with the floor also
at most 2^30), minObservedPods is the true minimum of the sampled counts; it is
reported by the closing log statement exactly when the run succeeds, while a
violated or timed-out run aborts at its failing assertion before the extremum
is reported. -/
theorem C4_min_extremum_amended (floor : Nat) (ticks : List Tick)
    (hb : ∀ t ∈ ticks, t.runningPods ≤ initMinObserved)
    (hf : floor ≤ initMinObserved) :
    ((runRollingUpdateMonitor floor ticks).samples ≠ [] →
      (runRollingUpdateMonitor floor ticks).minObservedPods ∈
        (runRollingUpdateMonitor floor ticks).samples ∧
      ∀ s ∈ (runRollingUpdateMonitor floor ticks).samples,
        (runRollingUpdateMonitor floor ticks).minObservedPods ≤ s) ∧
    ((runRollingUpdateMonitor floor ticks).outcome = Outcome.succeeded →
      (runRollingUpdateMonitor floor ticks).reportedMin =
        some (runRollingUpdateMonitor floor ticks).minObservedPods) ∧
    ((runRollingUpdateMonitor floor ticks).outcome ≠ Outcome.succeeded →
      (runRollingUpdateMonitor floor ticks).reportedMin = none) := by
  have hmin := monitorLoop_minObserved floor ticks initMinObserved
  obtain ⟨hbound, hinit, hattained⟩ :=
    foldl_min_spec (monitorLoop floor ticks initMinObserved).samples initMinObserved
  refine ⟨?_, ?_, ?_⟩
  · intro hne
    obtain ⟨s0, hs0⟩ := List.exists_mem_of_ne_nil _ hne
    have hs0le : s0 ≤ initMinObserved := by
      obtain ⟨t, ht, hts⟩ :=
        monitorLoop_samples_sub floor ticks initMinObserved s0 hs0
      exact hts ▸ hb t ht
    constructor
    · rw [runRollingUpdateMonitor, hmin]
      rcases hattained with h | h
      · have := hbound s0 hs0
        have : s0 = (monitorLoop floor ticks initMinObserved).samples.foldl min
            initMinObserved := by omega
        exact this ▸ hs0
      · exact h
    · intro s hs
      rw [runRollingUpdateMonitor, hmin]
      exact hbound s hs
  · intro h
    have hnv : (runRollingUpdateMonitor floor ticks).outcome ≠ Outcome.violated := by
      rw [h]
      simp
    have hall := monitorLoop_not_violated floor ticks initMinObserved hnv
    have hflo : floor ≤ (runRollingUpdateMonitor floor ticks).minObservedPods := by
      rw [runRollingUpdateMonitor, hmin]
      rcases hattained with hx | hx
      · omega
      · have := hall _ hx
        omega
    have hrep := (monitorLoop_succeeded floor ticks initMinObserved h).2
    rw [runRollingUpdateMonitor] at hflo ⊢
    rw [hrep, if_pos hflo]
  · exact monitorLoop_not_succeeded floor ticks initMinObserved

/-- C4 amended, witness: a run succeeding on its second tick has its minimum 6
among the samples and reported at the end. -/
theorem C4_min_extremum_amended_witness :
    (runRollingUpdateMonitor 5
        [⟨⟨10, 3, 10, 9⟩, 6⟩, ⟨⟨10, 10, 10, 10⟩, 9⟩]).minObservedPods ∈
      (runRollingUpdateMonitor 5
        [⟨⟨10, 3, 10, 9⟩, 6⟩, ⟨⟨10, 10, 10, 10⟩, 9⟩]).samples ∧
    (runRollingUpdateMonitor 5
        [⟨⟨10, 3, 10, 9⟩, 6⟩, ⟨⟨10, 10, 10, 10⟩, 9⟩]).reportedMin =
      some (runRollingUpdateMonitor 5
        [⟨⟨10, 3, 10, 9⟩, 6⟩, ⟨⟨10, 10, 10, 10⟩, 9⟩]).minObservedPods :=
  ⟨((C4_min_extremum_amended 5 [⟨⟨10, 3, 10, 9⟩, 6⟩, ⟨⟨10, 10, 10, 10⟩, 9⟩]
      (by decide) (by decide)).1 (by decide)).1,
    (C4_min_extremum_amended 5 [⟨⟨10, 3, 10, 9⟩, 6⟩, ⟨⟨10, 10, 10, 10⟩, 9⟩]
      (by decide) (by decide)).2.1 (by decide)⟩

/-! ## Aggregator helper lemmas -/

theorem tagRecorded_some (msg : Option String) (t0 t : String)
    (hsetup : t0 ≠ "Setup") :
    tagRecorded ⟨true, some t0, msg⟩ t ↔ t = t0 := by
  constructor
  · rintro ⟨_, h2, _⟩
    simpa using h2.symm
  · rintro rfl
    exact ⟨rfl, rfl, hsetup⟩

theorem tagRecorded_setup (msg : Option String) (t : String) :
    ¬tagRecorded ⟨true, some ("Setup"), msg⟩ t := by
  rintro ⟨_, h2, h3⟩
  apply h3
  simpa using h2.symm

theorem processLine_mem_failing (allowedTags : List String) (s : AggState)
    (l : LogLine) (t : String) :
    t ∈ (processLine allowedTags s l).failingTests ↔
      t ∈ s.failingTests ∨ failRecorded l t := by
  obtain ⟨p, tg, msg⟩ := l
  cases p with
  | false => simp [processLine, failRecorded, tagRecorded]
  | true =>
      cases tg with
      | none => simp [processLine, failRecorded, tagRecorded]
      | some t0 =>
          by_cases hsetup : t0 = "Setup"
          · subst hsetup
            have hnf : ¬failRecorded ⟨true, some ("Setup"), msg⟩ t :=
              fun h => tagRecorded_setup msg t h.1
            simp [processLine, hnf]
          · by_cases hmark : hasFailureMarker ⟨true, some t0, msg⟩ = true
            · have hfail1 : failRecorded ⟨true, some t0, msg⟩ t ↔ t = t0 := by
                simp [failRecorded, tagRecorded_some msg t0 t hsetup, hmark]
              simp [processLine, hsetup, hmark, hfail1]
            · have hnf : ¬failRecorded ⟨true, some t0, msg⟩ t := by
                simp [failRecorded, hmark]
              simp [processLine, hsetup, hmark, hnf]

theorem processLine_mem_allTags (allowedTags : List String) (s : AggState)
    (l : LogLine) (t : String) :
    t ∈ (processLine allowedTags s l).allTags ↔
      t ∈ s.allTags ∨ tagRecorded l t := by
  obtain ⟨p, tg, msg⟩ := l
  cases p with
  | false => simp [processLine, tagRecorded]
  | true =>
      cases tg with
      | none => simp [processLine, tagRecorded]
      | some t0 =>
          by_cases hsetup : t0 = "Setup"
          · subst hsetup
            simp [processLine, tagRecorded_setup msg t]
          · have htag1 := tagRecorded_some msg t0 t hsetup
            by_cases hin : contains s.allTags t0 = true
            · have hmem2 := (contains_iff s.allTags t0).mp hin
              by_cases hmark : hasFailureMarker ⟨true, some t0, msg⟩ = true
              · simp only [processLine, if_pos hin]
                simp [hsetup, hmark, htag1, hin]
                intro h
                subst h
                exact hmem2
              · simp [processLine, hsetup, hmark, htag1, hin]
                intro h
                subst h
                exact hmem2
            · by_cases hmark : hasFailureMarker ⟨true, some t0, msg⟩ = true
              · simp [processLine, hsetup, hmark, htag1, hin]
              · simp [processLine, hsetup, hmark, htag1, hin]

theorem processLine_mem_allowed (allowedTags : List String) (s : AggState)
    (l : LogLine) (t : String) :
    t ∈ (processLine allowedTags s l).allowedToFailTests ↔
      t ∈ s.allowedToFailTests ∨ (failRecorded l t ∧ t ∈ allowedTags) := by
  obtain ⟨p, tg, msg⟩ := l
  cases p with
  | false => simp [processLine, failRecorded, tagRecorded]
  | true =>
      cases tg with
      | none => simp [processLine, failRecorded, tagRecorded]
      | some t0 =>
          by_cases hsetup : t0 = "Setup"
          · subst hsetup
            have hnf : ¬failRecorded ⟨true, some ("Setup"), msg⟩ t :=
              fun h => tagRecorded_setup msg t h.1
            simp [processLine, hnf]
          · by_cases hmark : hasFailureMarker ⟨true, some t0, msg⟩ = true
            · have hfail1 : failRecorded ⟨true, some t0, msg⟩ t ↔ t = t0 := by
                simp [failRecorded, tagRecorded_some msg t0 t hsetup, hmark]
              by_cases hallow : contains allowedTags t0 = true
              · have hmem := (contains_iff allowedTags t0).mp hallow
                by_cases ht : t = t0
                · subst ht
                  simp [processLine, hsetup, hmark, hallow, hfail1, hmem]
                · simp [processLine, hsetup, hmark, hallow, hfail1, ht]
              · have hnmem : t0 ∉ allowedTags :=
                  fun h => hallow ((contains_iff allowedTags t0).mpr h)
                by_cases ht : t = t0
                · subst ht
                  simp [processLine, hsetup, hmark, hallow, hfail1, hnmem]
                · simp [processLine, hsetup, hmark, hallow, hfail1, ht]
            · have hnf : ¬failRecorded ⟨true, some t0, msg⟩ t := by
                simp [failRecorded, hmark]
              simp [processLine, hsetup, hmark, hnf]

theorem processLine_mem_notallowed (allowedTags : List String) (s : AggState)
    (l : LogLine) (t : String) :
    t ∈ (processLine allowedTags s l).failedButNotAllowedToFail ↔
      t ∈ s.failedButNotAllowedToFail ∨ (failRecorded l t ∧ t ∉ allowedTags) := by
  obtain ⟨p, tg, msg⟩ := l
  cases p with
  | false => simp [processLine, failRecorded, tagRecorded]
  | true =>
      cases tg with
      | none => simp [processLine, failRecorded, tagRecorded]
      | some t0 =>
          by_cases hsetup : t0 = "Setup"
          · subst hsetup
            have hnf : ¬failRecorded ⟨true, some ("Setup"), msg⟩ t :=
              fun h => tagRecorded_setup msg t h.1
            simp [processLine, hnf]
          · by_cases hmark : hasFailureMarker ⟨true, some t0, msg⟩ = true
            · have hfail1 : failRecorded ⟨true, some t0, msg⟩ t ↔ t = t0 := by
                simp [failRecorded, tagRecorded_some msg t0 t hsetup, hmark]
              by_cases hallow : contains allowedTags t0 = true
              · have hmem := (contains_iff allowedTags t0).mp hallow
                by_cases ht : t = t0
                · subst ht
                  simp [processLine, hsetup, hmark, hallow, hfail1, hmem]
                · simp [processLine, hsetup, hmark, hallow, hfail1, ht]
              · have hnmem : t0 ∉ allowedTags :=
                  fun h => hallow ((contains_iff allowedTags t0).mpr h)
                by_cases ht : t = t0
                · subst ht
                  simp [processLine, hsetup, hmark, hallow, hfail1, hnmem]
                · simp [processLine, hsetup, hmark, hallow, hfail1, ht]
            · have hnf : ¬failRecorded ⟨true, some t0, msg⟩ t := by
                simp [failRecorded, hmark]
              simp [processLine, hsetup, hmark, hnf]

theorem processLines_mem_aux (allowedTags : List String) (lines : List LogLine)
    (s : AggState) (t : String) :
    (t ∈ (lines.foldl (processLine allowedTags) s).failingTests ↔
      t ∈ s.failingTests ∨ ∃ l ∈ lines, failRecorded l t) ∧
    (t ∈ (lines.foldl (processLine allowedTags) s).allTags ↔
      t ∈ s.allTags ∨ ∃ l ∈ lines, tagRecorded l t) ∧
    (t ∈ (lines.foldl (processLine allowedTags) s).allowedToFailTests ↔
      t ∈ s.allowedToFailTests ∨ ((∃ l ∈ lines, failRecorded l t) ∧ t ∈ allowedTags)) ∧
    (t ∈ (lines.foldl (processLine allowedTags) s).failedButNotAllowedToFail ↔
      t ∈ s.failedButNotAllowedToFail ∨
        ((∃ l ∈ lines, failRecorded l t) ∧ t ∉ allowedTags)) := by
  induction lines generalizing s with
  | nil => simp
  | cons x ls ih =>
      obtain ⟨ih1, ih2, ih3, ih4⟩ := ih (processLine allowedTags s x)
      refine ⟨?_, ?_, ?_, ?_⟩
      · rw [List.foldl_cons, ih1, processLine_mem_failing]
        simp [or_assoc]
      · rw [List.foldl_cons, ih2, processLine_mem_allTags]
        simp [or_assoc]
      · rw [List.foldl_cons, ih3, processLine_mem_allowed,
          List.exists_mem_cons_iff, or_and_right, or_assoc]
      · rw [List.foldl_cons, ih4, processLine_mem_notallowed,
          List.exists_mem_cons_iff, or_and_right, or_assoc]

theorem processLine_allTags_nodup (allowedTags : List String) (s : AggState)
    (l : LogLine) (h : s.allTags.Nodup) :
    (processLine allowedTags s l).allTags.Nodup := by
  obtain ⟨p, tg, msg⟩ := l
  cases p with
  | false => simpa [processLine]
  | true =>
      cases tg with
      | none => simpa [processLine]
      | some t0 =>
          by_cases hsetup : t0 = "Setup"
          · simpa [processLine, hsetup]
          · by_cases hin : contains s.allTags t0 = true
            · by_cases hmark : hasFailureMarker ⟨true, some t0, msg⟩ = true
              · simpa [processLine, hsetup, hin, hmark]
              · simpa [processLine, hsetup, hin, hmark]
            · have hnmem : t0 ∉ s.allTags :=
                fun hm => hin ((contains_iff s.allTags t0).mpr hm)
              by_cases hmark : hasFailureMarker ⟨true, some t0, msg⟩ = true
              · simp [processLine, hsetup, hin, hmark, List.nodup_append, h, hnmem]
              · simp [processLine, hsetup, hin, hmark, List.nodup_append, h, hnmem]

theorem processLines_allTags_nodup (allowedTags : List String) (lines : List LogLine)
    (s : AggState) (h : s.allTags.Nodup) :
    (lines.foldl (processLine allowedTags) s).allTags.Nodup := by
  induction lines generalizing s with
  | nil => simpa
  | cons x ls ih => exact ih _ (processLine_allTags_nodup allowedTags s x h)

theorem processLine_failing_length (allowedTags : List String) (s : AggState)
    (l : LogLine) :
    (processLine allowedTags s l).failingTests.length =
      s.failingTests.length + (if lineFails l then 1 else 0) := by
  obtain ⟨p, tg, msg⟩ := l
  cases p with
  | false => simp [processLine, lineFails]
  | true =>
      cases tg with
      | none => simp [processLine, lineFails]
      | some t0 =>
          by_cases hsetup : t0 = "Setup"
          · simp [processLine, lineFails, hsetup]
          · by_cases hmark : hasFailureMarker ⟨true, some t0, msg⟩ = true
            · by_cases hallow : contains allowedTags t0 = true
              · simp [processLine, lineFails, hsetup, hmark, hallow]
              · simp [processLine, lineFails, hsetup, hmark, hallow]
            · simp [processLine, lineFails, hsetup, hmark]

theorem processLines_failing_length (allowedTags : List String)
    (lines : List LogLine) (s : AggState) :
    (lines.foldl (processLine allowedTags) s).failingTests.length =
      s.failingTests.length + (lines.filter lineFails).length := by
  induction lines generalizing s with
  | nil => simp
  | cons x ls ih =>
      rw [List.foldl_cons, ih, processLine_failing_length, List.filter_cons]
      by_cases h : lineFails x
      · simp [h]
        omega
      · simp [h]

/-- A tag in failingTests is always one of the recorded tags. -/
theorem failing_subset_allTags (allowedTags : List String) (lines : List LogLine)
    (t : String) (h : t ∈ (processLines allowedTags lines).failingTests) :
    t ∈ (processLines allowedTags lines).allTags := by
  have h1 := (processLines_mem_aux allowedTags lines initialAggState t).1
  have h2 := (processLines_mem_aux allowedTags lines initialAggState t).2.1
  rw [processLines] at h ⊢
  rw [h1] at h
  rw [h2]
  rcases h with h | ⟨l, hl, hf⟩
  · simp [initialAggState] at h
  · exact Or.inr ⟨l, hl, hf.1⟩

theorem contains_eq_false_iff (l : List String) (s : String) :
    contains l s = false ↔ s ∉ l := by
  rw [Bool.eq_false_iff]
  exact not_congr (contains_iff l s)

theorem mem_succeedingTests (s : AggState) (t : String) :
    t ∈ succeedingTests s ↔ t ∈ s.allTags ∧ t ∉ s.failingTests := by
  simp only [succeedingTests, List.mem_filter, Bool.not_eq_true', contains_eq_false_iff]

/-! ## Claim C5: tag classification -/

/-- C5: for any tag other than the bootstrap tag Setup, the tag is classified
failing iff some parseable record for it carries the failure marker; a failing
tag is in allowed-to-fail iff it is in the allow-list and in
failed-but-not-allowed otherwise; a recorded tag not classified failing is
succeeding. -/
theorem C5_tag_classification (allowedTags : List String) (lines : List LogLine)
    (t : String) (ht : t ≠ "Setup") :
    (t ∈ (processLines allowedTags lines).failingTests ↔
      ∃ l ∈ lines, l.parseable = true ∧ l.tag = some t ∧
        hasFailureMarker l = true) ∧
    (t ∈ (processLines allowedTags lines).allowedToFailTests ↔
      t ∈ (processLines allowedTags lines).failingTests ∧ t ∈ allowedTags) ∧
    (t ∈ (processLines allowedTags lines).failedButNotAllowedToFail ↔
      t ∈ (processLines allowedTags lines).failingTests ∧ t ∉ allowedTags) ∧
    (t ∈ succeedingTests (processLines allowedTags lines) ↔
      t ∈ (processLines allowedTags lines).allTags ∧
        t ∉ (processLines allowedTags lines).failingTests) ∧
    (t ∈ (processLines allowedTags lines).allTags ↔
      ∃ l ∈ lines, l.parseable = true ∧ l.tag = some t) := by
  obtain ⟨h1, h2, h3, h4⟩ := processLines_mem_aux allowedTags lines initialAggState t
  simp only [initialAggState, List.not_mem_nil, false_or] at h1 h2 h3 h4
  simp only [processLines, initialAggState]
  refine ⟨?_, ?_, ?_, mem_succeedingTests _ t, ?_⟩
  · rw [h1]
    constructor
    · rintro ⟨l, hl, ⟨hp, htg, _⟩, hm⟩
      exact ⟨l, hl, hp, htg, hm⟩
    · rintro ⟨l, hl, hp, htg, hm⟩
      exact ⟨l, hl, ⟨hp, htg, ht⟩, hm⟩
  · rw [h3, h1]
  · rw [h4, h1]
  · rw [h2]
    constructor
    · rintro ⟨l, hl, hp, htg, _⟩
      exact ⟨l, hl, hp, htg⟩
    · rintro ⟨l, hl, hp, htg⟩
      exact ⟨l, hl, hp, htg, ht⟩

/-- C5, witness: a stream where tag A has a failing record and A is in the
allow-list; A is classified failing and allowed-to-fail, and the succeeding
tag B is neither. -/
theorem C5_tag_classification_witness :
    "A" ∈ (processLines ["A"]
      [⟨true, some ("A"), some ("A:TEST_FAILED")⟩,
        ⟨true, some ("B"), some ("ok")⟩]).failingTests ∧
    "A" ∈ (processLines ["A"]
      [⟨true, some ("A"), some ("A:TEST_FAILED")⟩,
        ⟨true, some ("B"), some ("ok")⟩]).allowedToFailTests ∧
    "B" ∈ succeedingTests (processLines ["A"]
      [⟨true, some ("A"), some ("A:TEST_FAILED")⟩,
        ⟨true, some ("B"), some ("ok")⟩]) := by
  have hA := C5_tag_classification ["A"]
    [⟨true, some ("A"), some ("A:TEST_FAILED")⟩, ⟨true, some ("B"), some ("ok")⟩]
    "A" (by decide)
  have hB := C5_tag_classification ["A"]
    [⟨true, some ("A"), some ("A:TEST_FAILED")⟩, ⟨true, some ("B"), some ("ok")⟩]
    "B" (by decide)
  have hfail : "A" ∈ (processLines ["A"]
      [⟨true, some ("A"), some ("A:TEST_FAILED")⟩,
        ⟨true, some ("B"), some ("ok")⟩]).failingTests :=
    hA.1.mpr ⟨⟨true, some ("A"), some ("A:TEST_FAILED")⟩, by decide, by decide,
      by decide, by decide⟩
  refine ⟨hfail, hA.2.1.mpr ⟨hfail, by decide⟩, ?_⟩
  refine hB.2.2.2.1.mpr ⟨hB.2.2.2.2.mpr ⟨⟨true, some ("B"), some ("ok")⟩,
    by decide, by decide, by decide⟩, ?_⟩
  intro hmem
  obtain ⟨l, hl, hp, htg, hm⟩ := hB.1.mp hmem
  rcases List.mem_cons.mp hl with h | h
  · subst h
    simp at htg
  · rcases List.mem_cons.mp h with h | h
    · subst h
      exact absurd hm (by decide)
    · simp at h

/-! ## Claim C6: the success ratio -/

/-- C6, counterexample: a stream where tag A carries two failure records and
tag B succeeds.  The code divides by failingTests entries counted once per
record, giving 1/3 of 100, while the ratio of the claim (counting failing tags
once each and giving 1/2 of 100) differs. -/
theorem C6_ratio_counterexample :
    successRatio (processLines []
      [⟨true, some ("A"), some ("x TEST_FAILED")⟩,
        ⟨true, some ("A"), some ("y TEST_FAILED")⟩,
        ⟨true, some ("B"), some ("ok")⟩]) = some ((1 : Rat) / 3 * 100) ∧
    claimedSuccessRatio (processLines []
      [⟨true, some ("A"), some ("x TEST_FAILED")⟩,
        ⟨true, some ("A"), some ("y TEST_FAILED")⟩,
        ⟨true, some ("B"), some ("ok")⟩]) = some ((1 : Rat) / 2 * 100) ∧
    ((1 : Rat) / 3 * 100 ≠ (1 : Rat) / 2 * 100) := by
  have hsc : (succeedingTests (processLines []
      [⟨true, some ("A"), some ("x TEST_FAILED")⟩,
        ⟨true, some ("A"), some ("y TEST_FAILED")⟩,
        ⟨true, some ("B"), some ("ok")⟩])).length = 1 := by decide
  have htot : totalTests (processLines []
      [⟨true, some ("A"), some ("x TEST_FAILED")⟩,
        ⟨true, some ("A"), some ("y TEST_FAILED")⟩,
        ⟨true, some ("B"), some ("ok")⟩]) = 3 := by decide
  have hded : ((processLines []
      [⟨true, some ("A"), some ("x TEST_FAILED")⟩,
        ⟨true, some ("A"), some ("y TEST_FAILED")⟩,
        ⟨true, some ("B"), some ("ok")⟩]).failingTests).dedup.length = 1 := by decide
  refine ⟨?_, ?_, by norm_num⟩
  · rw [successRatio, if_neg (by rw [htot]; exact three_ne_zero), hsc, htot]
    norm_num
  · simp only [claimedSuccessRatio, hded, hsc]
    norm_num

/-- C6, amended: the denominator counts failure-marker records, not failing
tags: whenever at least one tag is classified, the success_ratio value equals
succeeding-tag count divided by (succeeding-tag count plus the number of
parseable non-bootstrap records carrying the failure marker), times 100; this
agrees with the claim exactly when no tag has more than one failure record. -/
theorem C6_ratio_amended (allowedTags : List String) (lines : List LogLine)
    (h : totalTests (processLines allowedTags lines) ≠ 0) :
    successRatio (processLines allowedTags lines) =
      some (((succeedingTests (processLines allowedTags lines)).length : Rat) /
        ((((succeedingTests (processLines allowedTags lines)).length +
          (lines.filter lineFails).length : Nat)) : Rat) * 100) := by
  have hcount : (processLines allowedTags lines).failingTests.length =
      (lines.filter lineFails).length := by
    have := processLines_failing_length allowedTags lines initialAggState
    simpa [processLines, initialAggState] using this
  rw [successRatio, if_neg h, totalTests, hcount, Nat.add_comm]

/-- C6 amended, witness: on the two-failure-record stream the code ratio is
100/3. -/
theorem C6_ratio_amended_witness :
    successRatio (processLines []
      [⟨true, some ("A"), some ("x TEST_FAILED")⟩,
        ⟨true, some ("A"), some ("y TEST_FAILED")⟩,
        ⟨true, some ("B"), some ("ok")⟩]) =
      some (((succeedingTests (processLines []
        [⟨true, some ("A"), some ("x TEST_FAILED")⟩,
          ⟨true, some ("A"), some ("y TEST_FAILED")⟩,
          ⟨true, some ("B"), some ("ok")⟩])).length : Rat) /
        (((succeedingTests (processLines []
          [⟨true, some ("A"), some ("x TEST_FAILED")⟩,
            ⟨true, some ("A"), some ("y TEST_FAILED")⟩,
            ⟨true, some ("B"), some ("ok")⟩])).length +
          (List.filter lineFails
            [⟨true, some ("A"), some ("x TEST_FAILED")⟩,
              ⟨true, some ("A"), some ("y TEST_FAILED")⟩,
              ⟨true, some ("B"), some ("ok")⟩]).length : Nat) : Rat) * 100) :=
  C6_ratio_amended []
    [⟨true, some ("A"), some ("x TEST_FAILED")⟩,
      ⟨true, some ("A"), some ("y TEST_FAILED")⟩,
      ⟨true, some ("B"), some ("ok")⟩] (by decide)

/-! ## Claim C7: the zero-denominator guard -/

/-- C7, counterexample: a stream whose only record carries the bootstrap tag
classifies zero tags, yet the report is still built with the ratio computed by
the unguarded 0/0 float division - the NaN value (encoded none, rendered NaN by
the Sprintf formatting) - instead of the division being skipped. -/
theorem C7_unguarded_counterexample :
    totalTests (processLines [] [⟨true, some ("Setup"), some ("hello")⟩]) = 0 ∧
    (buildFinalReport [] [⟨true, some ("Setup"), some ("hello")⟩]).successRatio =
      none := by
  exact ⟨by decide, by decide⟩

/-- C7, amended: there is no explicit guard: for every stream that classifies
zero tags the aggregator still reaches the ratio computation, performs the 0/0
float division, and emits the resulting NaN in the success_ratio field of the
report. -/
theorem C7_nan_amended (allowedTags : List String) (lines : List LogLine)
    (h : (processLines allowedTags lines).allTags = []) :
    totalTests (processLines allowedTags lines) = 0 ∧
    (buildFinalReport allowedTags lines).successRatio = none := by
  have hfail : (processLines allowedTags lines).failingTests = [] := by
    by_contra hne
    obtain ⟨t, htm⟩ := List.exists_mem_of_ne_nil _ hne
    have := failing_subset_allTags allowedTags lines t htm
    rw [h] at this
    simp at this
  have hsucc : succeedingTests (processLines allowedTags lines) = [] := by
    rw [succeedingTests, h]
    rfl
  have htot : totalTests (processLines allowedTags lines) = 0 := by
    rw [totalTests, hfail, hsucc]
    rfl
  refine ⟨htot, ?_⟩
  simp only [buildFinalReport, successRatio]
  rw [if_pos htot]

/-- C7 amended, witness: a bootstrap-only stream yields zero classified tags
and the NaN ratio in the built report. -/
theorem C7_nan_amended_witness :
    totalTests (processLines [] [⟨true, some ("Setup"), some ("starting up")⟩]) = 0 ∧
    (buildFinalReport [] [⟨true, some ("Setup"), some ("starting up")⟩]).successRatio =
      none :=
  C7_nan_amended [] [⟨true, some ("Setup"), some ("starting up")⟩] (by decide)

/-! ## Claim C9: the summary gate -/

/-- C9, counterexample: one single tag carrying three failure records makes
totalTests equal 3, so the summary is emitted although only one tag is
present - the gate counts failure records, not tags. -/
theorem C9_summary_counterexample :
    summaryEmitted (processLines []
      [⟨true, some ("A"), some ("TEST_FAILED")⟩,
        ⟨true, some ("A"), some ("TEST_FAILED")⟩,
        ⟨true, some ("A"), some ("TEST_FAILED")⟩]) = true ∧
    (processLines []
      [⟨true, some ("A"), some ("TEST_FAILED")⟩,
        ⟨true, some ("A"), some ("TEST_FAILED")⟩,
        ⟨true, some ("A"), some ("TEST_FAILED")⟩]).allTags.length = 1 := by
  exact ⟨by decide, by decide⟩

/-- C9, amended: the summary is emitted iff the failing-record count plus the
succeeding-tag count exceeds 2; since every recorded tag contributes at least
one to that sum, the summary is always emitted when at least three tags are
present, but it can also be emitted with fewer tags (the report artifact is
built regardless of the gate). -/
theorem C9_summary_amended (allowedTags : List String) (lines : List LogLine) :
    (summaryEmitted (processLines allowedTags lines) = true ↔
      2 < totalTests (processLines allowedTags lines)) ∧
    (3 ≤ (processLines allowedTags lines).allTags.length →
      summaryEmitted (processLines allowedTags lines) = true) := by
  constructor
  · simp [summaryEmitted]
  · intro h3
    have hnodup : (processLines allowedTags lines).allTags.Nodup :=
      processLines_allTags_nodup allowedTags lines initialAggState
        (by simp [initialAggState])
    have hpart := List.length_eq_length_filter_add
      (l := (processLines allowedTags lines).allTags)
      (fun t => contains (processLines allowedTags lines).failingTests t)
    have hsub : ((processLines allowedTags lines).allTags.filter
        (fun t => contains (processLines allowedTags lines).failingTests t)) ⊆
        (processLines allowedTags lines).failingTests := by
      intro t htm
      exact (contains_iff _ _).mp (List.mem_filter.mp htm).2
    have hle := ((hnodup.filter _).subperm hsub).length_le
    have hsucc : ((processLines allowedTags lines).allTags.filter
        (fun x => !(fun t =>
          contains (processLines allowedTags lines).failingTests t) x)).length =
        (succeedingTests (processLines allowedTags lines)).length := rfl
    rw [hsucc] at hpart
    simp only [summaryEmitted, totalTests, gt_iff_lt, decide_eq_true_eq]
    omega

/-- C9 amended, witness: three distinct recorded tags force the summary. -/
theorem C9_summary_amended_witness :
    summaryEmitted (processLines []
      [⟨true, some ("A"), some ("r1 TEST_FAILED")⟩,
        ⟨true, some ("B"), some ("r2 TEST_FAILED")⟩,
        ⟨true, some ("C"), some ("ok")⟩]) = true :=
  (C9_summary_amended []
    [⟨true, some ("A"), some ("r1 TEST_FAILED")⟩,
      ⟨true, some ("B"), some ("r2 TEST_FAILED")⟩,
      ⟨true, some ("C"), some ("ok")⟩]).2 (by decide)

/-! ## Claim C10: the kubeconfig panic path -/

/-- C10: when .env exists and loads but leaves KUBECONFIG empty, initKubeconfig
panics (and the panic propagates through GetClient in the KUBECONFIG access
mode); conversely the panic outcome occurs only in exactly that situation -
every other configuration failure of the function is returned as an ordinary
error value. -/
theorem C10_panic_on_empty_kubeconfig (env : EnvSt)
    (h1 : env.loadResult = LoadEnvResult.ok) (h2 : env.kubeconfigVar = "") :
    (initKubeconfig env = InitResult.panicked envFormatErrorMsg ∧
      getClientKubeconfigMode env = InitResult.panicked envFormatErrorMsg) ∧
    ∀ e : EnvSt, ∀ msg : String, initKubeconfig e = InitResult.panicked msg →
      e.loadResult = LoadEnvResult.ok ∧ e.kubeconfigVar = "" ∧
        msg = envFormatErrorMsg := by
  have hmain : initKubeconfig env = InitResult.panicked envFormatErrorMsg := by
    simp [initKubeconfig, h1, h2]
  refine ⟨⟨hmain, ?_⟩, ?_⟩
  · simp [getClientKubeconfigMode, hmain]
  · intro e msg h
    by_cases ho : e.loadResult = LoadEnvResult.otherError
    · simp [initKubeconfig, ho] at h
    · by_cases hk : e.kubeconfigVar = ""
      · by_cases hn : e.loadResult = LoadEnvResult.notExist
        · by_cases hh : e.homeDir = ""
          · simp [initKubeconfig, ho, hk, hn, hh] at h
          · by_cases hc : contains e.existingFiles (e.homeDir ++ "/.kube/config") = true
            · simp [initKubeconfig, ho, hk, hn, hh, hc] at h
            · simp [initKubeconfig, ho, hk, hn, hh, hc] at h
        · have hok : e.loadResult = LoadEnvResult.ok := by
            cases he : e.loadResult
            · rfl
            · exact absurd he hn
            · exact absurd he ho
          have hmsg : msg = envFormatErrorMsg := by
            simp [initKubeconfig, ho, hk, hn] at h
            exact h.symm
          exact ⟨hok, hk, hmsg⟩
      · by_cases hc : contains e.existingFiles e.kubeconfigVar = true
        · simp [initKubeconfig, ho, hk, hc] at h
        · simp [initKubeconfig, ho, hk, hc] at h

/-- C10, witness: an environment with a loaded .env and empty KUBECONFIG. -/
theorem C10_panic_on_empty_kubeconfig_witness :
    initKubeconfig ⟨LoadEnvResult.ok, "", "/root", []⟩ =
      InitResult.panicked envFormatErrorMsg ∧
    getClientKubeconfigMode ⟨LoadEnvResult.ok, "", "/root", []⟩ =
      InitResult.panicked envFormatErrorMsg :=
  (C10_panic_on_empty_kubeconfig ⟨LoadEnvResult.ok, "", "/root", []⟩ rfl rfl).1

end Cluster
